import Mathlib

/-!
Shallow embedding of the ShARC ingestion pipeline and proofs about it.

Embedded source functions:
- floyd_warshall and build_carp_instance (build_instance_gdb.py)
- parse_gdb_dat and its helpers (parse_gdb.py)
- validate_instance of the guardrail (conversionguardrail.py)

Machine floats holding integer sums are modelled exactly: the distance
matrix carries WithTop Int entries, with top playing the role of math.inf.
-/

/-- Dense 1-indexed distance matrix, as in the source a total map on vertex
ids; entries outside the allocated (n+1) x (n+1) block are never read by the
embedded algorithms. -/
abbrev Mat : Type := Nat → Nat → WithTop Int

/-- One Python slot assignment writing x into entry (i, j). -/
def fwUpd (d : Mat) (i j : Nat) (x : WithTop Int) : Mat :=
  fun a b => if a = i ∧ b = j then x else d a b

/-- The assignment dist[a][b] = min(dist[a][b], float(w)) used when loading
an edge into the matrix. -/
def setMin (d : Mat) (a b : Nat) (w : Int) : Mat :=
  fwUpd d a b (min (d a b) (w : WithTop Int))

/-- Loading one undirected edge: the two sequential assignments
dist[u][v] = min(dist[u][v], w) and dist[v][u] = min(dist[v][u], w). -/
def addEdgeFW (d : Mat) (e : Nat × Nat × Int) : Mat :=
  setMin (setMin d e.1 e.2.1 e.2.2) e.2.1 e.1 e.2.2

/-- Matrix before any edge is loaded: inf everywhere except dist[i][i] = 0
for i in 1..n. -/
def fwBase (n : Nat) : Mat :=
  fun i j => if i = j ∧ 1 ≤ i ∧ i ≤ n then 0 else ⊤

/-- Initial matrix of floyd_warshall: diagonal zeros then all edges loaded
in list order (parallel edges collapse to the minimum weight seen). -/
def fwInit (n : Nat) (edges : List (Nat × Nat × Int)) : Mat :=
  edges.foldl addEdgeFW (fwBase n)

/-- The vertex range 1..n that every loop of the source iterates over. -/
def jrange (n : Nat) : List Nat :=
  (List.range n).map (fun x => x + 1)

/-- Innermost body of floyd_warshall for one j: alt = dik + dk[j];
if alt < di[j] then di[j] = alt.  dik is the value captured before the
j loop; row k and row i are read live, reflecting the list aliasing. -/
def fwJstep (k i : Nat) (dik : WithTop Int) (d : Mat) (j : Nat) : Mat :=
  if dik + d k j < d i j then fwUpd d i j (dik + d k j) else d

/-- The j loop of floyd_warshall. -/
def fwJloop (k i : Nat) (dik : WithTop Int) (d : Mat) (js : List Nat) : Mat :=
  js.foldl (fwJstep k i dik) d

/-- Body of the i loop: capture dik = dist[i][k], skip the whole inner loop
when it is inf, otherwise run the j loop over 1..n. -/
def fwIstep (n k : Nat) (d : Mat) (i : Nat) : Mat :=
  if d i k = ⊤ then d else fwJloop k i (d i k) d (jrange n)

/-- The i loop of floyd_warshall for a fixed intermediate k. -/
def fwIloop (n k : Nat) (d : Mat) (is' : List Nat) : Mat :=
  is'.foldl (fwIstep n k) d

/-- floyd_warshall from build_instance_gdb.py: initialize the matrix from
the edge list, then the triple loop over k, i, j with the inf skip. -/
def floyd_warshall (n : Nat) (edges : List (Nat × Nat × Int)) : Mat :=
  (jrange n).foldl (fun d k => fwIloop n k d (jrange n)) (fwInit n edges)

/-- Reference relaxation body (no skip): the always-executed assignment
dist[i][j] = min(dist[i][j], dist[i][k] + dist[k][j]), all entries read
live from the evolving matrix. -/
def fwJstepRef (k i : Nat) (d : Mat) (j : Nat) : Mat :=
  fwUpd d i j (min (d i j) (d i k + d k j))

/-- Reference j loop. -/
def fwJloopRef (k i : Nat) (d : Mat) (js : List Nat) : Mat :=
  js.foldl (fwJstepRef k i) d

/-- Reference i loop: no capture, no skip. -/
def fwIloopRef (n k : Nat) (d : Mat) (is' : List Nat) : Mat :=
  is'.foldl (fun d i => fwJloopRef k i d (jrange n)) d

/-- Modelled from the spec: the reference Floyd-Warshall that always
executes the relaxation dist[i][j] = min(dist[i][j], dist[i][k] + dist[k][j])
with no infinity skip, used as the comparison point of claim C8. -/
def floyd_warshall_ref (n : Nat) (edges : List (Nat × Nat × Int)) : Mat :=
  (jrange n).foldl (fun d k => fwIloopRef n k d (jrange n)) (fwInit n edges)

/-- Functional one-phase update of Floyd-Warshall with intermediate k,
restricted to the 1..n block. -/
def phaseUpdate (n k : Nat) (d : Mat) : Mat :=
  fun a b =>
    if 1 ≤ a ∧ a ≤ n ∧ 1 ≤ b ∧ b ≤ n ∧ d a k + d k b < d a b then d a k + d k b
    else d a b

/-- Matrix after the first m phases of the functional Floyd-Warshall. -/
def fwB (n : Nat) (edges : List (Nat × Nat × Int)) : Nat → Mat
  | 0 => fwInit n edges
  | m + 1 => phaseUpdate n (m + 1) (fwB n edges m)

/-- All entries are nonnegative (inf counts as nonnegative). -/
def NonnegM (d : Mat) : Prop := ∀ a b, 0 ≤ d a b

/-- The diagonal is zero on 1..n. -/
def Diag0 (n : Nat) (d : Mat) : Prop := ∀ a, 1 ≤ a → a ≤ n → d a a = 0

/-- The matrix is symmetric. -/
def SymM (d : Mat) : Prop := ∀ a b, d a b = d b a

/-- Well-formed input for floyd_warshall: endpoints inside 1..n (outside
this range the source program would index out of the allocated rows) and
nonnegative weights. -/
def EdgesOk (n : Nat) (edges : List (Nat × Nat × Int)) : Prop :=
  ∀ e ∈ edges, 1 ≤ e.1 ∧ e.1 ≤ n ∧ 1 ≤ e.2.1 ∧ e.2.1 ≤ n ∧ 0 ≤ e.2.2

lemma mem_jrange {n a : Nat} : a ∈ jrange n ↔ 1 ≤ a ∧ a ≤ n := by
  unfold jrange
  simp only [List.mem_map, List.mem_range]
  constructor
  · rintro ⟨x, hx, rfl⟩
    omega
  · rintro ⟨h1, h2⟩
    exact ⟨a - 1, by omega, by omega⟩

lemma nodup_jrange (n : Nat) : (jrange n).Nodup :=
  (List.nodup_range n).map (fun _ _ h => by omega)

lemma fwUpd_off {d : Mat} {i j a b : Nat} {x : WithTop Int}
    (h : ¬(a = i ∧ b = j)) : fwUpd d i j x a b = d a b := by
  unfold fwUpd
  simp [h]

lemma fwUpd_at {d : Mat} {i j : Nat} {x : WithTop Int} : fwUpd d i j x i j = x := by
  unfold fwUpd
  simp

lemma fwJstep_off {k i : Nat} {dik : WithTop Int} {d : Mat} {j a b : Nat}
    (h : ¬(a = i ∧ b = j)) : fwJstep k i dik d j a b = d a b := by
  unfold fwJstep
  split
  · exact fwUpd_off h
  · rfl

lemma fwJstep_at {k i : Nat} {dik : WithTop Int} {d : Mat} {j : Nat} :
    fwJstep k i dik d j i j =
      if dik + d k j < d i j then dik + d k j else d i j := by
  unfold fwJstep
  by_cases hlt : dik + d k j < d i j
  · rw [if_pos hlt, fwUpd_at, if_pos hlt]
  · rw [if_neg hlt, if_neg hlt]

lemma fwJloop_char (k i : Nat) (dik : WithTop Int) (d : Mat) (js : List Nat)
    (h : js.Nodup) :
    fwJloop k i dik d js = fun a b =>
      if a = i ∧ b ∈ js ∧ dik + d k b < d i b then dik + d k b else d a b := by
  induction js generalizing d with
  | nil =>
    funext a b
    simp [fwJloop]
  | cons j t ih =>
    have hjt : j ∉ t := (List.nodup_cons.mp h).1
    have hnd : t.Nodup := (List.nodup_cons.mp h).2
    have step : fwJloop k i dik d (j :: t) = fwJloop k i dik (fwJstep k i dik d j) t := rfl
    rw [step, ih _ hnd]
    funext a b
    by_cases hai : a = i
    · by_cases hbj : b = j
      · have hbt : b ∉ t := by rw [hbj]; exact hjt
        have hL : ¬(a = i ∧ b ∈ t ∧
            dik + fwJstep k i dik d j k b < fwJstep k i dik d j i b) :=
          fun hc => hbt hc.2.1
        rw [if_neg hL, hai, hbj, fwJstep_at]
        have hR : (i = i ∧ j ∈ j :: t ∧ dik + d k j < d i j) ↔ dik + d k j < d i j := by
          simp [List.mem_cons]
        by_cases hlt : dik + d k j < d i j
        · rw [if_pos hlt, if_pos (hR.mpr hlt)]
        · rw [if_neg hlt, if_neg (fun hc => hlt (hR.mp hc))]
      · have e1 : fwJstep k i dik d j k b = d k b := fwJstep_off (fun hc => hbj hc.2)
        have e2 : fwJstep k i dik d j i b = d i b := fwJstep_off (fun hc => hbj hc.2)
        have e3 : fwJstep k i dik d j a b = d a b := fwJstep_off (fun hc => hbj hc.2)
        rw [e1, e2, e3]
        have hiff : (a = i ∧ b ∈ t ∧ dik + d k b < d i b) ↔
            (a = i ∧ b ∈ j :: t ∧ dik + d k b < d i b) := by
          simp [List.mem_cons, hbj]
        rw [if_congr hiff rfl rfl]
    · have hL : ¬(a = i ∧ b ∈ t ∧
          dik + fwJstep k i dik d j k b < fwJstep k i dik d j i b) :=
        fun hc => hai hc.1
      have hR : ¬(a = i ∧ b ∈ j :: t ∧ dik + d k b < d i b) :=
        fun hc => hai hc.1
      rw [if_neg hL, if_neg hR]
      exact fwJstep_off (fun hc => hai hc.1)


lemma fwIstep_char (n k : Nat) (d : Mat) (i : Nat) :
    fwIstep n k d i = fun a b =>
      if a = i ∧ b ∈ jrange n ∧ d i k + d k b < d i b then d i k + d k b else d a b := by
  unfold fwIstep
  by_cases htop : d i k = ⊤
  · rw [if_pos htop]
    funext a b
    rw [if_neg]
    intro hc
    have hlt := hc.2.2
    rw [htop, top_add] at hlt
    exact not_top_lt hlt
  · rw [if_neg htop]
    exact fwJloop_char k i (d i k) d (jrange n) (nodup_jrange n)

lemma fwIstep_off {n k : Nat} {d : Mat} {i a b : Nat} (h : a ≠ i) :
    fwIstep n k d i a b = d a b := by
  simp only [fwIstep_char]
  exact if_neg (fun hc => h hc.1)

lemma fwIstep_rowk {n k : Nat} {d : Mat} {i b : Nat} (hkk : d k k = 0) :
    fwIstep n k d i k b = d k b := by
  simp only [fwIstep_char]
  rw [if_neg]
  intro hc
  have hlt := hc.2.2
  rw [hc.1] at hkk hlt
  rw [hkk, zero_add] at hlt
  exact lt_irrefl _ hlt

lemma fwIstep_colk {n k : Nat} {d : Mat} {i a : Nat} (hkk : d k k = 0) :
    fwIstep n k d i a k = d a k := by
  simp only [fwIstep_char]
  rw [if_neg]
  intro hc
  have hlt := hc.2.2
  rw [hkk, add_zero] at hlt
  exact lt_irrefl _ hlt

lemma fwIloop_char (n k : Nat) (d : Mat) (hkk : d k k = 0) (is' : List Nat)
    (hnd : is'.Nodup) :
    fwIloop n k d is' = fun a b =>
      if a ∈ is' ∧ b ∈ jrange n ∧ d a k + d k b < d a b then d a k + d k b else d a b := by
  induction is' generalizing d with
  | nil =>
    funext a b
    simp [fwIloop]
  | cons i t ih =>
    have hit : i ∉ t := (List.nodup_cons.mp hnd).1
    have hnt : t.Nodup := (List.nodup_cons.mp hnd).2
    have step : fwIloop n k d (i :: t) = fwIloop n k (fwIstep n k d i) t := rfl
    have hkk' : fwIstep n k d i k k = 0 := by rw [fwIstep_rowk hkk]; exact hkk
    rw [step, ih _ hkk' hnt]
    funext a b
    by_cases hai : a = i
    · have hat : a ∉ t := by rw [hai]; exact hit
      rw [if_neg (fun hc => hat hc.1), hai]
      simp only [fwIstep_char]
      simp [List.mem_cons]
    · have e1 : fwIstep n k d i a k = d a k := fwIstep_colk hkk
      have e2 : fwIstep n k d i k b = d k b := fwIstep_rowk hkk
      have e3 : fwIstep n k d i a b = d a b := fwIstep_off hai
      rw [e1, e2, e3]
      have hiff : (a ∈ t ∧ b ∈ jrange n ∧ d a k + d k b < d a b) ↔
          (a ∈ i :: t ∧ b ∈ jrange n ∧ d a k + d k b < d a b) := by
        simp [List.mem_cons, hai]
      rw [if_congr hiff rfl rfl]

lemma fwIloop_phase (n k : Nat) (d : Mat) (hkk : d k k = 0) :
    fwIloop n k d (jrange n) = phaseUpdate n k d := by
  rw [fwIloop_char n k d hkk (jrange n) (nodup_jrange n)]
  funext a b
  unfold phaseUpdate
  have hiff : (a ∈ jrange n ∧ b ∈ jrange n ∧ d a k + d k b < d a b) ↔
      (1 ≤ a ∧ a ≤ n ∧ 1 ≤ b ∧ b ≤ n ∧ d a k + d k b < d a b) := by
    rw [mem_jrange, mem_jrange]
    tauto
  rw [if_congr hiff rfl rfl]

lemma fwJstepRef_off {k i : Nat} {d : Mat} {j a b : Nat}
    (h : ¬(a = i ∧ b = j)) : fwJstepRef k i d j a b = d a b :=
  fwUpd_off h

lemma fwJstepRef_at {k i : Nat} {d : Mat} {j : Nat} :
    fwJstepRef k i d j i j = min (d i j) (d i k + d k j) :=
  fwUpd_at

lemma fwJloopRef_char (k i : Nat) (d : Mat) (js : List Nat) (h : js.Nodup)
    (hkk : d k k = 0) :
    fwJloopRef k i d js = fun a b =>
      if a = i ∧ b ∈ js then min (d i b) (d i k + d k b) else d a b := by
  induction js generalizing d with
  | nil =>
    funext a b
    simp [fwJloopRef]
  | cons j t ih =>
    have hjt : j ∉ t := (List.nodup_cons.mp h).1
    have hnt : t.Nodup := (List.nodup_cons.mp h).2
    have step : fwJloopRef k i d (j :: t) = fwJloopRef k i (fwJstepRef k i d j) t := rfl
    have hkk' : fwJstepRef k i d j k k = 0 := by
      by_cases hc : k = i ∧ k = j
      · show fwUpd d i j (min (d i j) (d i k + d k j)) k k = 0
        unfold fwUpd
        rw [if_pos hc, ← hc.1, ← hc.2, hkk, add_zero, min_self]
      · rw [fwJstepRef_off hc, hkk]
    rw [step, ih _ hnt hkk']
    have e_ik : fwJstepRef k i d j i k = d i k := by
      by_cases hkj : k = j
      · show fwUpd d i j (min (d i j) (d i k + d k j)) i k = d i k
        unfold fwUpd
        rw [if_pos ⟨rfl, hkj⟩, ← hkj, hkk, add_zero, min_self]
      · exact fwJstepRef_off (fun hc => hkj hc.2)
    funext a b
    by_cases hai : a = i
    · by_cases hbj : b = j
      · have hbt : b ∉ t := by rw [hbj]; exact hjt
        rw [if_neg (fun hc => hbt hc.2), hai, hbj, fwJstepRef_at,
          if_pos ⟨rfl, List.mem_cons_self j t⟩]
      · have e1 : fwJstepRef k i d j i b = d i b := fwJstepRef_off (fun hc => hbj hc.2)
        have e2 : fwJstepRef k i d j k b = d k b := fwJstepRef_off (fun hc => hbj hc.2)
        have e3 : fwJstepRef k i d j a b = d a b := fwJstepRef_off (fun hc => hbj hc.2)
        rw [e1, e2, e3, e_ik]
        have hiff : (a = i ∧ b ∈ t) ↔ (a = i ∧ b ∈ j :: t) := by
          simp [List.mem_cons, hbj]
        rw [if_congr hiff rfl rfl]
    · have e3 : fwJstepRef k i d j a b = d a b := fwJstepRef_off (fun hc => hai hc.1)
      rw [if_neg (fun hc => hai hc.1), if_neg (fun hc => hai hc.1), e3]

lemma fwIstepRef_off {n k : Nat} {d : Mat} {i a b : Nat} (hkk : d k k = 0) (h : a ≠ i) :
    fwJloopRef k i d (jrange n) a b = d a b := by
  simp only [fwJloopRef_char k i d (jrange n) (nodup_jrange n) hkk]
  exact if_neg (fun hc => h hc.1)

lemma fwIstepRef_rowk {n k : Nat} {d : Mat} {i b : Nat} (hkk : d k k = 0) :
    fwJloopRef k i d (jrange n) k b = d k b := by
  simp only [fwJloopRef_char k i d (jrange n) (nodup_jrange n) hkk]
  split
  · rename_i h
    rw [← h.1, hkk, zero_add, min_self]
  · rfl

lemma fwIstepRef_colk {n k : Nat} {d : Mat} {i a : Nat} (hkk : d k k = 0) :
    fwJloopRef k i d (jrange n) a k = d a k := by
  simp only [fwJloopRef_char k i d (jrange n) (nodup_jrange n) hkk]
  split
  · rename_i h
    rw [hkk, add_zero, min_self, h.1]
  · rfl

lemma ite_lt_eq_min {x y : WithTop Int} : (if x < y then x else y) = min y x := by
  by_cases h : x < y
  · rw [if_pos h, min_eq_right h.le]
  · rw [if_neg h, min_eq_left (not_lt.mp h)]

lemma fwIloopRef_char (n k : Nat) (d : Mat) (hkk : d k k = 0) (is' : List Nat)
    (hnd : is'.Nodup) :
    fwIloopRef n k d is' = fun a b =>
      if a ∈ is' ∧ b ∈ jrange n then min (d a b) (d a k + d k b) else d a b := by
  induction is' generalizing d with
  | nil =>
    funext a b
    simp [fwIloopRef]
  | cons i t ih =>
    have hit : i ∉ t := (List.nodup_cons.mp hnd).1
    have hnt : t.Nodup := (List.nodup_cons.mp hnd).2
    have step : fwIloopRef n k d (i :: t) = fwIloopRef n k (fwJloopRef k i d (jrange n)) t := rfl
    have hkk' : fwJloopRef k i d (jrange n) k k = 0 := by rw [fwIstepRef_rowk hkk]; exact hkk
    rw [step, ih _ hkk' hnt]
    funext a b
    by_cases hai : a = i
    · have hat : a ∉ t := by rw [hai]; exact hit
      rw [if_neg (fun hc => hat hc.1), hai]
      simp only [fwJloopRef_char k i d (jrange n) (nodup_jrange n) hkk]
      simp [List.mem_cons]
    · have e1 : fwJloopRef k i d (jrange n) a k = d a k := fwIstepRef_colk hkk
      have e2 : fwJloopRef k i d (jrange n) k b = d k b := fwIstepRef_rowk hkk
      have e3 : fwJloopRef k i d (jrange n) a b = d a b := fwIstepRef_off hkk hai
      rw [e1, e2, e3]
      have hiff : (a ∈ t ∧ b ∈ jrange n) ↔ (a ∈ i :: t ∧ b ∈ jrange n) := by
        simp [List.mem_cons, hai]
      rw [if_congr hiff rfl rfl]

lemma fwIloopRef_phase (n k : Nat) (d : Mat) (hkk : d k k = 0) :
    fwIloopRef n k d (jrange n) = phaseUpdate n k d := by
  rw [fwIloopRef_char n k d hkk (jrange n) (nodup_jrange n)]
  funext a b
  unfold phaseUpdate
  by_cases hab : 1 ≤ a ∧ a ≤ n ∧ 1 ≤ b ∧ b ≤ n
  · have hmem : a ∈ jrange n ∧ b ∈ jrange n :=
      ⟨mem_jrange.mpr ⟨hab.1, hab.2.1⟩, mem_jrange.mpr ⟨hab.2.2.1, hab.2.2.2⟩⟩
    rw [if_pos hmem]
    by_cases hlt : d a k + d k b < d a b
    · rw [if_pos ⟨hab.1, hab.2.1, hab.2.2.1, hab.2.2.2, hlt⟩, min_eq_right hlt.le]
    · rw [if_neg (fun hc => hlt hc.2.2.2.2), min_eq_left (not_lt.mp hlt)]
  · have hmem : ¬(a ∈ jrange n ∧ b ∈ jrange n) := by
      rw [mem_jrange, mem_jrange]
      tauto
    rw [if_neg hmem, if_neg (fun hc => hab ⟨hc.1, hc.2.1, hc.2.2.1, hc.2.2.2.1⟩)]

lemma nonneg_fwBase (n : Nat) : NonnegM (fwBase n) := by
  intro a b
  unfold fwBase
  split
  · exact le_refl 0
  · exact le_top

lemma diag0_fwBase (n : Nat) : Diag0 n (fwBase n) := by
  intro a h1 h2
  unfold fwBase
  rw [if_pos ⟨rfl, h1, h2⟩]

lemma symm_fwBase (n : Nat) : SymM (fwBase n) := by
  intro a b
  unfold fwBase
  by_cases hab : a = b
  · rw [hab]
  · rw [if_neg (fun hc => hab hc.1), if_neg (fun hc => hab hc.1.symm)]

lemma nonneg_setMin {d : Mat} {a b : Nat} {w : Int} (h : NonnegM d) (hw : 0 ≤ w) :
    NonnegM (setMin d a b w) := by
  intro i j
  unfold setMin fwUpd
  split
  · exact le_min (h a b) (by exact_mod_cast hw)
  · exact h i j

lemma diag0_setMin {n : Nat} {d : Mat} {a b : Nat} {w : Int} (h : Diag0 n d) (hw : 0 ≤ w) :
    Diag0 n (setMin d a b w) := by
  intro i h1 h2
  unfold setMin fwUpd
  split
  · rename_i hc
    rw [← hc.1, ← hc.2, h i h1 h2]
    exact min_eq_left (by exact_mod_cast hw)
  · exact h i h1 h2

lemma nonneg_addEdgeFW {d : Mat} {e : Nat × Nat × Int} (h : NonnegM d) (hw : 0 ≤ e.2.2) :
    NonnegM (addEdgeFW d e) :=
  nonneg_setMin (nonneg_setMin h hw) hw

lemma diag0_addEdgeFW {n : Nat} {d : Mat} {e : Nat × Nat × Int} (h : Diag0 n d)
    (hw : 0 ≤ e.2.2) : Diag0 n (addEdgeFW d e) :=
  diag0_setMin (diag0_setMin h hw) hw

lemma symm_addEdgeFW {d : Mat} {e : Nat × Nat × Int} (h : SymM d) : SymM (addEdgeFW d e) := by
  obtain ⟨u, v, w⟩ := e
  intro a b
  unfold addEdgeFW setMin fwUpd
  dsimp only
  have huv := h u v
  have hvu := h v u
  have hab := h a b
  by_cases h1 : a = v <;> by_cases h2 : b = u <;> by_cases h3 : a = u <;>
    by_cases h4 : b = v <;> by_cases h5 : u = v <;> simp_all

lemma fwInit_inv (n : Nat) (edges : List (Nat × Nat × Int))
    (h : ∀ e ∈ edges, 0 ≤ e.2.2) :
    NonnegM (fwInit n edges) ∧ Diag0 n (fwInit n edges) ∧ SymM (fwInit n edges) := by
  unfold fwInit
  have main : ∀ (es : List (Nat × Nat × Int)) (d : Mat), (∀ e ∈ es, 0 ≤ e.2.2) →
      NonnegM d → Diag0 n d → SymM d →
      NonnegM (es.foldl addEdgeFW d) ∧ Diag0 n (es.foldl addEdgeFW d) ∧
        SymM (es.foldl addEdgeFW d) := by
    intro es
    induction es with
    | nil => exact fun d _ hn hd hs => ⟨hn, hd, hs⟩
    | cons e t ih =>
      intro d hes hn hd hs
      have hw : 0 ≤ e.2.2 := hes e (List.mem_cons_self e t)
      exact ih (addEdgeFW d e) (fun x hx => hes x (List.mem_cons_of_mem e hx))
        (nonneg_addEdgeFW hn hw) (diag0_addEdgeFW hd hw) (symm_addEdgeFW hs)
  exact main edges (fwBase n) h (nonneg_fwBase n) (diag0_fwBase n) (symm_fwBase n)

lemma nonneg_phaseUpdate {n k : Nat} {d : Mat} (h : NonnegM d) :
    NonnegM (phaseUpdate n k d) := by
  intro a b
  unfold phaseUpdate
  split
  · exact add_nonneg (h a k) (h k b)
  · exact h a b

lemma diag0_phaseUpdate {n k : Nat} {d : Mat} (hnn : NonnegM d) (hdg : Diag0 n d) :
    Diag0 n (phaseUpdate n k d) := by
  intro a h1 h2
  unfold phaseUpdate
  rw [if_neg]
  · exact hdg a h1 h2
  · intro hc
    have hlt := hc.2.2.2.2
    rw [hdg a h1 h2] at hlt
    exact absurd hlt (not_lt.mpr (add_nonneg (hnn a k) (hnn k a)))

lemma symm_phaseUpdate {n k : Nat} {d : Mat} (hs : SymM d) :
    SymM (phaseUpdate n k d) := by
  intro a b
  unfold phaseUpdate
  have hval : d a k + d k b = d b k + d k a := by
    rw [hs a k, hs k b, add_comm]
  by_cases hc : 1 ≤ a ∧ a ≤ n ∧ 1 ≤ b ∧ b ≤ n ∧ d a k + d k b < d a b
  · have hc2 : 1 ≤ b ∧ b ≤ n ∧ 1 ≤ a ∧ a ≤ n ∧ d b k + d k a < d b a := by
      refine ⟨hc.2.2.1, hc.2.2.2.1, hc.1, hc.2.1, ?_⟩
      rw [← hval, ← hs a b]
      exact hc.2.2.2.2
    rw [if_pos hc, if_pos hc2, hval]
  · have hc2 : ¬(1 ≤ b ∧ b ≤ n ∧ 1 ≤ a ∧ a ≤ n ∧ d b k + d k a < d b a) := by
      intro hx
      refine hc ⟨hx.2.2.1, hx.2.2.2.1, hx.1, hx.2.1, ?_⟩
      rw [hval, hs a b]
      exact hx.2.2.2.2
    rw [if_neg hc, if_neg hc2]
    exact hs a b

lemma fold_phase_eq (n : Nat) (ks : List Nat) (d : Mat)
    (hnn : NonnegM d) (hdg : Diag0 n d) (hks : ∀ k ∈ ks, 1 ≤ k ∧ k ≤ n) :
    ks.foldl (fun d k => fwIloop n k d (jrange n)) d =
      ks.foldl (fun d k => phaseUpdate n k d) d := by
  induction ks generalizing d with
  | nil => rfl
  | cons k t ih =>
    have hk := hks k (List.mem_cons_self k t)
    have hkk : d k k = 0 := hdg k hk.1 hk.2
    have step1 : (k :: t).foldl (fun d k => fwIloop n k d (jrange n)) d =
        t.foldl (fun d k => fwIloop n k d (jrange n)) (fwIloop n k d (jrange n)) := rfl
    have step2 : (k :: t).foldl (fun d k => phaseUpdate n k d) d =
        t.foldl (fun d k => phaseUpdate n k d) (phaseUpdate n k d) := rfl
    rw [step1, step2, fwIloop_phase n k d hkk]
    exact ih (phaseUpdate n k d) (nonneg_phaseUpdate hnn) (diag0_phaseUpdate hnn hdg)
      (fun x hx => hks x (List.mem_cons_of_mem k hx))

lemma fold_phaseRef_eq (n : Nat) (ks : List Nat) (d : Mat)
    (hnn : NonnegM d) (hdg : Diag0 n d) (hks : ∀ k ∈ ks, 1 ≤ k ∧ k ≤ n) :
    ks.foldl (fun d k => fwIloopRef n k d (jrange n)) d =
      ks.foldl (fun d k => phaseUpdate n k d) d := by
  induction ks generalizing d with
  | nil => rfl
  | cons k t ih =>
    have hk := hks k (List.mem_cons_self k t)
    have hkk : d k k = 0 := hdg k hk.1 hk.2
    have step1 : (k :: t).foldl (fun d k => fwIloopRef n k d (jrange n)) d =
        t.foldl (fun d k => fwIloopRef n k d (jrange n)) (fwIloopRef n k d (jrange n)) := rfl
    have step2 : (k :: t).foldl (fun d k => phaseUpdate n k d) d =
        t.foldl (fun d k => phaseUpdate n k d) (phaseUpdate n k d) := rfl
    rw [step1, step2, fwIloopRef_phase n k d hkk]
    exact ih (phaseUpdate n k d) (nonneg_phaseUpdate hnn) (diag0_phaseUpdate hnn hdg)
      (fun x hx => hks x (List.mem_cons_of_mem k hx))

lemma jrange_succ (m : Nat) : jrange (m + 1) = jrange m ++ [m + 1] := by
  unfold jrange
  rw [List.range_succ, List.map_append]
  rfl

lemma fwB_eq_fold (n : Nat) (edges : List (Nat × Nat × Int)) (m : Nat) :
    fwB n edges m = (jrange m).foldl (fun d k => phaseUpdate n k d) (fwInit n edges) := by
  induction m with
  | zero => rfl
  | succ m ih =>
    rw [jrange_succ, List.foldl_append, ← ih]
    rfl

lemma edgesOk_w {n : Nat} {edges : List (Nat × Nat × Int)} (h : EdgesOk n edges) :
    ∀ e ∈ edges, 0 ≤ e.2.2 :=
  fun e he => (h e he).2.2.2.2

lemma floyd_warshall_eq_fwB (n : Nat) (edges : List (Nat × Nat × Int))
    (h : EdgesOk n edges) : floyd_warshall n edges = fwB n edges n := by
  obtain ⟨hnn, hdg, _⟩ := fwInit_inv n edges (edgesOk_w h)
  unfold floyd_warshall
  rw [fold_phase_eq n (jrange n) (fwInit n edges) hnn hdg
    (fun k hk => mem_jrange.mp hk), ← fwB_eq_fold]

lemma floyd_warshall_ref_eq_fwB (n : Nat) (edges : List (Nat × Nat × Int))
    (h : EdgesOk n edges) : floyd_warshall_ref n edges = fwB n edges n := by
  obtain ⟨hnn, hdg, _⟩ := fwInit_inv n edges (edgesOk_w h)
  unfold floyd_warshall_ref
  rw [fold_phaseRef_eq n (jrange n) (fwInit n edges) hnn hdg
    (fun k hk => mem_jrange.mp hk), ← fwB_eq_fold]

lemma fwB_inv (n : Nat) (edges : List (Nat × Nat × Int))
    (h : ∀ e ∈ edges, 0 ≤ e.2.2) (m : Nat) :
    NonnegM (fwB n edges m) ∧ Diag0 n (fwB n edges m) ∧ SymM (fwB n edges m) := by
  induction m with
  | zero => exact fwInit_inv n edges h
  | succ m ih =>
    exact ⟨nonneg_phaseUpdate ih.1, diag0_phaseUpdate ih.1 ih.2.1,
      symm_phaseUpdate ih.2.2⟩

lemma phaseUpdate_in {n k : Nat} (d : Mat) {a b : Nat}
    (ha1 : 1 ≤ a) (ha2 : a ≤ n) (hb1 : 1 ≤ b) (hb2 : b ≤ n) :
    phaseUpdate n k d a b = min (d a b) (d a k + d k b) := by
  unfold phaseUpdate
  by_cases hlt : d a k + d k b < d a b
  · rw [if_pos ⟨ha1, ha2, hb1, hb2, hlt⟩, min_eq_right hlt.le]
  · rw [if_neg (fun hc => hlt hc.2.2.2.2), min_eq_left (not_lt.mp hlt)]

lemma phase_tri_self {n k : Nat} {d : Mat} (hdg : Diag0 n d)
    (hk1 : 1 ≤ k) (hk2 : k ≤ n) {i j : Nat}
    (hi1 : 1 ≤ i) (hi2 : i ≤ n) (hj1 : 1 ≤ j) (hj2 : j ≤ n) :
    phaseUpdate n k d i j ≤ phaseUpdate n k d i k + phaseUpdate n k d k j := by
  rw [phaseUpdate_in d hi1 hi2 hj1 hj2, phaseUpdate_in d hi1 hi2 hk1 hk2,
    phaseUpdate_in d hk1 hk2 hj1 hj2]
  have hik : min (d i k) (d i k + d k k) = d i k := by
    rw [hdg k hk1 hk2, add_zero, min_self]
  have hkj : min (d k j) (d k k + d k j) = d k j := by
    rw [hdg k hk1 hk2, zero_add, min_self]
  rw [hik, hkj]
  exact min_le_right _ _

lemma phase_tri_step {n p k : Nat} {D : Mat} (hnn : NonnegM D)
    (hp1 : 1 ≤ p) (hp2 : p ≤ n) (hk1 : 1 ≤ k) (hk2 : k ≤ n)
    (IH : ∀ i j, 1 ≤ i → i ≤ n → 1 ≤ j → j ≤ n → D i j ≤ D i k + D k j)
    {i j : Nat} (hi1 : 1 ≤ i) (hi2 : i ≤ n) (hj1 : 1 ≤ j) (hj2 : j ≤ n) :
    phaseUpdate n p D i j ≤ phaseUpdate n p D i k + phaseUpdate n p D k j := by
  rw [phaseUpdate_in D hi1 hi2 hj1 hj2, phaseUpdate_in D hi1 hi2 hk1 hk2,
    phaseUpdate_in D hk1 hk2 hj1 hj2]
  rcases le_total (D i k) (D i p + D p k) with h1 | h1
  · rw [min_eq_left h1]
    rcases le_total (D k j) (D k p + D p j) with h2 | h2
    · rw [min_eq_left h2]
      calc min (D i j) (D i p + D p j) ≤ D i j := min_le_left _ _
        _ ≤ D i k + D k j := IH i j hi1 hi2 hj1 hj2
    · rw [min_eq_right h2]
      calc min (D i j) (D i p + D p j) ≤ D i p + D p j := min_le_right _ _
        _ ≤ (D i k + D k p) + D p j :=
            add_le_add_right (IH i p hi1 hi2 hp1 hp2) _
        _ = D i k + (D k p + D p j) := add_assoc _ _ _
  · rw [min_eq_right h1]
    rcases le_total (D k j) (D k p + D p j) with h2 | h2
    · rw [min_eq_left h2]
      calc min (D i j) (D i p + D p j) ≤ D i p + D p j := min_le_right _ _
        _ ≤ D i p + (D p k + D k j) :=
            add_le_add_left (IH p j hp1 hp2 hj1 hj2) _
        _ = (D i p + D p k) + D k j := (add_assoc _ _ _).symm
    · rw [min_eq_right h2]
      calc min (D i j) (D i p + D p j) ≤ D i p + D p j := min_le_right _ _
        _ = D i p + (0 + D p j) := by rw [zero_add]
        _ ≤ D i p + ((D p k + D k p) + D p j) := by
            apply add_le_add_left
            apply add_le_add_right
            exact add_nonneg (hnn p k) (hnn k p)
        _ = (D i p + D p k) + (D k p + D p j) := by
            rw [add_assoc (D i p) (D p k), ← add_assoc (D p k) (D k p)]

lemma fwB_triangle (n : Nat) (edges : List (Nat × Nat × Int))
    (hE : ∀ e ∈ edges, 0 ≤ e.2.2) (k : Nat) (hk1 : 1 ≤ k) :
    ∀ m, k ≤ m → m ≤ n → ∀ i j, 1 ≤ i → i ≤ n → 1 ≤ j → j ≤ n →
      fwB n edges m i j ≤ fwB n edges m i k + fwB n edges m k j := by
  intro m hkm
  induction m, hkm using Nat.le_induction with
  | base =>
    intro hkn i j hi1 hi2 hj1 hj2
    obtain ⟨kk, rfl⟩ : ∃ kk, k = kk + 1 := ⟨k - 1, by omega⟩
    have hinv := fwB_inv n edges hE kk
    exact phase_tri_self hinv.2.1 hk1 hkn hi1 hi2 hj1 hj2
  | succ m hkm ih =>
    intro hmn i j hi1 hi2 hj1 hj2
    have hmn' : m ≤ n := by omega
    have hinv := fwB_inv n edges hE m
    exact phase_tri_step hinv.1 (by omega) hmn hk1 (by omega)
      (fun i j hi1 hi2 hj1 hj2 => ih hmn' i j hi1 hi2 hj1 hj2) hi1 hi2 hj1 hj2

/-- C6: for every vertex count n and every well-formed list of edges with
nonnegative weights, the matrix returned by floyd_warshall has a zero
diagonal on 1..n and is symmetric on 1..n. -/
theorem fw_diag_zero_and_symmetric (n : Nat) (edges : List (Nat × Nat × Int))
    (h : EdgesOk n edges) :
    (∀ i, 1 ≤ i → i ≤ n → floyd_warshall n edges i i = 0) ∧
    (∀ i j, 1 ≤ i → i ≤ n → 1 ≤ j → j ≤ n →
      floyd_warshall n edges i j = floyd_warshall n edges j i) := by
  rw [floyd_warshall_eq_fwB n edges h]
  have hinv := fwB_inv n edges (edgesOk_w h) n
  exact ⟨fun i h1 h2 => hinv.2.1 i h1 h2, fun i j _ _ _ _ => hinv.2.2 i j⟩

/-- Witness for C6 at the spec example graph on three vertices. -/
theorem fw_diag_zero_and_symmetric_witness :
    floyd_warshall 3 [(1, 2, 3), (2, 3, 4), (1, 3, 10)] 2 2 = 0 ∧
    floyd_warshall 3 [(1, 2, 3), (2, 3, 4), (1, 3, 10)] 1 3 =
      floyd_warshall 3 [(1, 2, 3), (2, 3, 4), (1, 3, 10)] 3 1 :=
  ⟨(fw_diag_zero_and_symmetric 3 [(1, 2, 3), (2, 3, 4), (1, 3, 10)]
      (by unfold EdgesOk; decide)).1 2 (by decide) (by decide),
   (fw_diag_zero_and_symmetric 3 [(1, 2, 3), (2, 3, 4), (1, 3, 10)]
      (by unfold EdgesOk; decide)).2 1 3 (by decide) (by decide) (by decide) (by decide)⟩

/-- C7: the floyd_warshall output satisfies the triangle inequality for all
triples in 1..n, with infinity handled by the extended arithmetic of
WithTop. -/
theorem fw_triangle_inequality (n : Nat) (edges : List (Nat × Nat × Int))
    (h : EdgesOk n edges) (i j k : Nat)
    (hi1 : 1 ≤ i) (hi2 : i ≤ n) (hj1 : 1 ≤ j) (hj2 : j ≤ n)
    (hk1 : 1 ≤ k) (hk2 : k ≤ n) :
    floyd_warshall n edges i j ≤
      floyd_warshall n edges i k + floyd_warshall n edges k j := by
  rw [floyd_warshall_eq_fwB n edges h]
  exact fwB_triangle n edges (edgesOk_w h) k hk1 n hk2 le_rfl i j hi1 hi2 hj1 hj2

/-- Witness for C7 at the spec example graph on three vertices. -/
theorem fw_triangle_inequality_witness :
    floyd_warshall 3 [(1, 2, 3), (2, 3, 4), (1, 3, 10)] 1 3 ≤
      floyd_warshall 3 [(1, 2, 3), (2, 3, 4), (1, 3, 10)] 1 2 +
      floyd_warshall 3 [(1, 2, 3), (2, 3, 4), (1, 3, 10)] 2 3 :=
  fw_triangle_inequality 3 [(1, 2, 3), (2, 3, 4), (1, 3, 10)]
    (by unfold EdgesOk; decide) 1 3 2 (by decide) (by decide) (by decide)
    (by decide) (by decide) (by decide)

/-- C8: on well-formed inputs with nonnegative weights the infinity skip is
a pure optimization: floyd_warshall returns exactly the same matrix as the
reference Floyd-Warshall with the unconditional min relaxation. -/
theorem fw_skip_is_pure_optimization (n : Nat) (edges : List (Nat × Nat × Int))
    (h : EdgesOk n edges) :
    floyd_warshall n edges = floyd_warshall_ref n edges := by
  rw [floyd_warshall_eq_fwB n edges h, floyd_warshall_ref_eq_fwB n edges h]

/-- Witness for C8 at a concrete disconnected graph, where the skip branch
actually fires. -/
theorem fw_skip_is_pure_optimization_witness :
    floyd_warshall 4 [(1, 2, 3), (3, 4, 5)] = floyd_warshall_ref 4 [(1, 2, 3), (3, 4, 5)] :=
  fw_skip_is_pure_optimization 4 [(1, 2, 3), (3, 4, 5)] (by unfold EdgesOk; decide)

/-- The comment-start tokens of parse_gdb.py, in scan order. -/
def COMMENT_TOKENS : List (List Char) := [['/', '/'], ['#'], ['%'], [';']]

/-- Prefix of s strictly before the first occurrence of tok; s itself when
tok does not occur.  This equals the source's conditional
s.split(tok, 1)[0], which also leaves s unchanged when tok is absent. -/
def cutBefore (tok : List Char) : List Char → List Char
  | [] => []
  | c :: t => if tok.isPrefixOf (c :: t) then [] else c :: cutBefore tok t

/-- The trailing rstrip of newline characters done by strip_comment. -/
def dropTrailNl (s : List Char) : List Char :=
  (s.reverse.dropWhile (fun c => c = '\n')).reverse

/-- strip_comment from parse_gdb.py: truncate at each comment token in
order, then strip trailing newlines. -/
def strip_comment (s : List Char) : List Char :=
  dropTrailNl (COMMENT_TOKENS.foldl (fun acc tok => cutBefore tok acc) s)

/-- ASCII whitespace, the character class both str.strip and the regex
escape for whitespace recognize on this input family. -/
def isPySpace (c : Char) : Bool :=
  c = ' ' || c = '\t' || c = '\n' || c = '\r' || c = '\x0b' || c = '\x0c'

/-- Python str.strip on ASCII whitespace. -/
def stripWS (s : List Char) : List Char :=
  ((s.dropWhile isPySpace).reverse.dropWhile isPySpace).reverse

/-- Leading whitespace skip used when simulating the regex engine. -/
def dropSpacesRe (s : List Char) : List Char := s.dropWhile isPySpace

/-- The section-start keyword of the required-edge list. -/
def markerChars : List Char := "LISTA_ARISTAS_REQ".toList

/-- Case-insensitive prefix test of the section marker, applied to an
already cleaned line: line.upper().startswith section keyword. -/
def isMarkerL (line : List Char) : Bool :=
  markerChars.isPrefixOf (line.map Char.toUpper)

/-- Decimal value of a digit run. -/
def natOfDigits (ds : List Char) : Nat :=
  ds.foldl (fun n c => 10 * n + (c.toNat - 48)) 0

/-- One anchored attempt of the pair pattern: an opening parenthesis, then
optional spaces, digits, optional spaces, a comma, optional spaces, digits,
optional spaces and a closing parenthesis. -/
def matchPairAt : List Char → Option (Nat × Nat)
  | '(' :: r =>
    let r1 := dropSpacesRe r
    let d1 := r1.takeWhile Char.isDigit
    let r2 := r1.dropWhile Char.isDigit
    if d1.isEmpty then none
    else
      match dropSpacesRe r2 with
      | ',' :: r4 =>
        let r5 := dropSpacesRe r4
        let d2 := r5.takeWhile Char.isDigit
        let r6 := r5.dropWhile Char.isDigit
        if d2.isEmpty then none
        else
          match dropSpacesRe r6 with
          | ')' :: _ => some (natOfDigits d1, natOfDigits d2)
          | _ => none
      | _ => none
  | _ => none

/-- Leftmost search of the pair pattern, as the regex search does. -/
def searchPair : List Char → Option (Nat × Nat)
  | [] => none
  | c :: t =>
    match matchPairAt (c :: t) with
    | some p => some p
    | none => searchPair t

/-- One anchored attempt of a case-insensitive keyword followed by optional
spaces and a digit run. -/
def matchKwAt (kw : List Char) (s : List Char) : Option Nat :=
  if (s.take kw.length).map Char.toLower = kw then
    let r := dropSpacesRe (s.drop kw.length)
    let ds := r.takeWhile Char.isDigit
    if ds.isEmpty then none else some (natOfDigits ds)
  else none

/-- Leftmost search of keyword-then-number, as the cost and demand regex
searches do. -/
def searchKw (kw : List Char) : List Char → Option Nat
  | [] => none
  | c :: t =>
    match matchKwAt kw (c :: t) with
    | some v => some v
    | none => searchKw kw t

/-- The lowercase keyword of the cost field. -/
def costeChars : List Char := "coste".toList

/-- The lowercase keyword of the demand field. -/
def demandaChars : List Char := "demanda".toList

/-- The character class of header keys: ASCII letters and digits, the
uppercase accented letters listed in the source pattern, underscore and
space. -/
def isHdrKeyChar (c : Char) : Bool :=
  c.isAlphanum || c = '_' || c = ' ' ||
    c = 'Á' || c = 'É' || c = 'Í' || c = 'Ó' || c = 'Ú' || c = 'Ü' || c = 'Ñ'

/-- The anchored header pattern: optional leading whitespace, a nonempty
run of key characters, a colon, then the rest of the line as the value
with surrounding whitespace stripped. -/
def matchHeader (s : List Char) : Option (List Char × List Char) :=
  let r := dropSpacesRe s
  let key := r.takeWhile isHdrKeyChar
  let rest := r.dropWhile isHdrKeyChar
  if key.isEmpty then none
  else
    match rest with
    | ':' :: r2 => some (key, stripWS r2)
    | _ => none

/-- A parsed header value: an integer when the text fully matches an
optionally signed digit run, the raw string otherwise. -/
inductive Val where
  | int (n : Int)
  | str (s : String)
deriving DecidableEq, Repr

/-- The full-match test of an optionally negated digit run. -/
def isSignedDigitsRe : List Char → Bool
  | [] => false
  | '-' :: t => !t.isEmpty && t.all Char.isDigit
  | l => !l.isEmpty && l.all Char.isDigit

/-- Integer value of an optionally negated digit run. -/
def intOfSigned (l : List Char) : Int :=
  match l with
  | '-' :: t => -(natOfDigits t : Int)
  | t => (natOfDigits t : Int)

/-- coerce_value from parse_gdb.py. -/
def coerce_value (v : List Char) : Val :=
  let w := stripWS v
  if isSignedDigitsRe w then Val.int (intOfSigned w) else Val.str (String.mk w)

/-- normalize_key from parse_gdb.py: strip, uppercase, spaces to
underscores. -/
def normalize_key (k : List Char) : String :=
  String.mk (((stripWS k).map Char.toUpper).map (fun c => if c = ' ' then '_' else c))

/-- A required edge as emitted by the parser. -/
structure REdge where
  u : Nat
  v : Nat
  cost : Nat
  demand : Nat
  required : Bool
deriving DecidableEq, Repr

/-- The three structural parse anomalies, carrying the data interpolated
into the source's warning strings. -/
inductive PWarning where
  | noHeaders
  | noReqSection
  | countMismatch (declared : Val) (parsed : Nat)
deriving DecidableEq, Repr

/-- The loop state of parse_gdb_dat: the raw header log (later writes win
on lookup), the emitted edges in order, and the two booleans of the
two-state machine. -/
structure PState where
  meta : List (String × Val)
  edges : List REdge
  inReq : Bool
  seenReq : Bool
deriving DecidableEq, Repr

/-- Dictionary lookup on the header log: the value of the last write. -/
def metaGet : List (String × Val) → String → Option Val
  | [], _ => none
  | (k, v) :: t, q =>
    match metaGet t q with
    | some w => some w
    | none => if k = q then some v else none

/-- The cleaning applied to every raw line before dispatch: comment
stripping then whitespace stripping. -/
def cleanLine (raw : String) : List Char :=
  stripWS (strip_comment raw.toList)

/-- One loop iteration of parse_gdb_dat over a raw line. -/
def stepLine (st : PState) (raw : String) : PState :=
  if (cleanLine raw).isEmpty then st
  else if isMarkerL (cleanLine raw) then
    { st with inReq := true, seenReq := true }
  else if st.inReq then
    match searchPair (cleanLine raw), searchKw costeChars (cleanLine raw),
        searchKw demandaChars (cleanLine raw) with
    | some p, some c, some dm =>
      { st with edges := st.edges ++ [⟨p.1, p.2, c, dm, true⟩] }
    | _, _, _ =>
      match matchHeader (cleanLine raw) with
      | some kv =>
        { st with
          inReq := false
          meta := st.meta ++ [(normalize_key kv.1, coerce_value kv.2)] }
      | none => st
  else
    match matchHeader (cleanLine raw) with
    | some kv => { st with meta := st.meta ++ [(normalize_key kv.1, coerce_value kv.2)] }
    | none => st

/-- The canonical meta projection of the raw header map. -/
structure CanonMeta where
  name : Option Val
  comment : Option Val
  n_vertices : Option Val
  n_req : Option Val
  n_noreq : Option Val
  n_vehicles : Option Val
  capacity : Option Val
  req_total_cost : Option Val
  depot : Option Val
  cost_type : Option Val
deriving DecidableEq, Repr

/-- The result record of parse_gdb_dat. -/
structure Parsed where
  meta_raw : List (String × Val)
  meta : CanonMeta
  required_edges : List REdge
  warnings : List PWarning
deriving DecidableEq, Repr

/-- The inequality test of the count-mismatch warning: a stored string
never equals the parsed integer count, mirroring the dynamic comparison. -/
def valNeNat (v : Val) (n : Nat) : Bool :=
  match v with
  | Val.int m => m != (n : Int)
  | Val.str _ => true

/-- The initial loop state. -/
def initPState : PState := ⟨[], [], false, false⟩

/-- parse_gdb_dat from parse_gdb.py over the lines of the file (the file
content is given already split into newline-free lines, as splitlines
produces it); total on every input, per the recoverable-result contract. -/
def parse_gdb_dat (lines : List String) : Parsed :=
  let st := lines.foldl stepLine initPState
  let canon : CanonMeta :=
    ⟨metaGet st.meta "NOMBRE", metaGet st.meta "COMENTARIO",
     metaGet st.meta "VERTICES", metaGet st.meta "ARISTAS_REQ",
     metaGet st.meta "ARISTAS_NOREQ", metaGet st.meta "VEHICULOS",
     metaGet st.meta "CAPACIDAD", metaGet st.meta "COSTE_TOTAL_REQ",
     metaGet st.meta "DEPOSITO", metaGet st.meta "TIPO_COSTES_ARISTAS"⟩
  let w1 : List PWarning := if st.meta.isEmpty then [PWarning.noHeaders] else []
  let w2 : List PWarning := if st.seenReq then [] else [PWarning.noReqSection]
  let w3 : List PWarning :=
    match canon.n_req with
    | none => []
    | some v =>
      if valNeNat v st.edges.length then [PWarning.countMismatch v st.edges.length]
      else []
  ⟨st.meta, canon, st.edges, w1 ++ w2 ++ w3⟩

/-- Whether a raw line is the section-start marker after cleaning. -/
def isMarkerLine (raw : String) : Bool :=
  isMarkerL (cleanLine raw)

lemma stepLine_seenReq (st : PState) (raw : String) :
    (stepLine st raw).seenReq = (st.seenReq || isMarkerLine raw) := by
  unfold stepLine isMarkerLine
  by_cases hemp : (cleanLine raw).isEmpty
  · rw [if_pos hemp]
    have hnil : cleanLine raw = [] := List.isEmpty_iff.mp hemp
    rw [hnil]
    have hmf : isMarkerL [] = false := rfl
    rw [hmf, Bool.or_false]
  · rw [if_neg hemp]
    cases hmk : isMarkerL (cleanLine raw) with
    | true => simp
    | false =>
      simp only [Bool.false_eq_true, if_false, Bool.or_false]
      by_cases hin : st.inReq = true
      · rw [if_pos hin]
        split
        · rfl
        · split
          · rfl
          · rfl
      · rw [if_neg hin]
        split
        · rfl
        · rfl

lemma foldl_seenReq (lines : List String) (st : PState) :
    (lines.foldl stepLine st).seenReq = (st.seenReq || lines.any isMarkerLine) := by
  induction lines generalizing st with
  | nil => simp
  | cons l t ih =>
    rw [List.foldl_cons, ih, stepLine_seenReq, List.any_cons, Bool.or_assoc]

lemma stepLine_edges_req (st : PState) (raw : String)
    (h : ∀ e ∈ st.edges, e.required = true) :
    ∀ e ∈ (stepLine st raw).edges, e.required = true := by
  intro e he
  unfold stepLine at he
  repeat' split at he
  all_goals
    first
      | exact h e he
      | (rcases List.mem_append.mp he with h1 | h1
         · exact h e h1
         · rw [List.mem_singleton.mp h1])

lemma parse_edges_required_aux :
    ∀ (ls : List String) (st : PState), (∀ e ∈ st.edges, e.required = true) →
      ∀ e ∈ (ls.foldl stepLine st).edges, e.required = true := by
  intro ls
  induction ls with
  | nil => exact fun st h => h
  | cons l t ih => exact fun st h => ih (stepLine st l) (stepLine_edges_req st l h)

/-- Input of the C4 counterexample: a declared vertex count of 2 and an
edge line whose endpoints 0 and 5 fall outside 1..2. -/
def exC4lines : List String :=
  ["VERTICES : 2", "LISTA_ARISTAS_REQ :", "( 0 , 5 ) coste 3 demanda 1"]

/-- C4 counterexample: the parser emits a required edge whose endpoints lie
outside [1, vertex_count]; no range check exists in parse_gdb_dat. -/
theorem parser_emits_out_of_range_endpoints :
    (parse_gdb_dat exC4lines).meta.n_vertices = some (Val.int 2) ∧
    ¬(∀ e ∈ (parse_gdb_dat exC4lines).required_edges,
        1 ≤ e.u ∧ e.u ≤ 2 ∧ 1 ≤ e.v ∧ e.v ≤ 2) := by
  constructor
  · decide
  · decide

/-- C4 as amended: every emitted edge carries required = true and
nonnegative integer cost and demand (the endpoint range condition of the
original claim is not guaranteed, as the counterexample shows). -/
theorem required_edge_flags (lines : List String) (e : REdge)
    (he : e ∈ (parse_gdb_dat lines).required_edges) :
    e.required = true ∧ (0 : Int) ≤ (e.cost : Int) ∧ (0 : Int) ≤ (e.demand : Int) :=
  ⟨parse_edges_required_aux lines initPState (by intro x hx; cases hx) e he,
    Int.natCast_nonneg _, Int.natCast_nonneg _⟩

/-- Example input of the C4 witness. -/
def exC4wlines : List String :=
  ["LISTA_ARISTAS_REQ :", "( 1 , 2 ) coste 13 demanda 5"]

/-- Witness for the amended C4 at a concretely parsed edge. -/
theorem required_edge_flags_witness :
    (⟨1, 2, 13, 5, true⟩ : REdge).required = true ∧
      (0 : Int) ≤ ((⟨1, 2, 13, 5, true⟩ : REdge).cost : Int) ∧
      (0 : Int) ≤ ((⟨1, 2, 13, 5, true⟩ : REdge).demand : Int) :=
  required_edge_flags exC4wlines ⟨1, 2, 13, 5, true⟩ (by decide)

/-- C9: when the section-start marker occurs among the lines and the
declared required-edge count equals the number of edges actually parsed,
parse_gdb_dat returns an empty warnings list. -/
theorem parser_no_warnings_when_consistent (lines : List String)
    (hm : lines.any isMarkerLine = true)
    (hc : (parse_gdb_dat lines).meta.n_req =
      some (Val.int ((parse_gdb_dat lines).required_edges.length))) :
    (parse_gdb_dat lines).warnings = [] := by
  have hc' : metaGet (lines.foldl stepLine initPState).meta "ARISTAS_REQ" =
      some (Val.int ((lines.foldl stepLine initPState).edges.length)) := hc
  have hseen : (lines.foldl stepLine initPState).seenReq = true := by
    rw [foldl_seenReq, hm]
    exact Bool.or_true _
  have hmeta : (lines.foldl stepLine initPState).meta.isEmpty = false := by
    cases hq : (lines.foldl stepLine initPState).meta with
    | nil => rw [hq] at hc'; cases hc'
    | cons a t => rfl
  simp only [parse_gdb_dat]
  rw [hmeta, hseen, hc']
  simp [valNeNat]

/-- Input of the C9 witness: one header declaring one required edge, the
section marker, and one well-formed edge line. -/
def exC9lines : List String :=
  ["ARISTAS_REQ : 1", "LISTA_ARISTAS_REQ :", "( 1 , 2 ) coste 3 demanda 4"]

/-- Witness for C9 at a concrete consistent input. -/
theorem parser_no_warnings_when_consistent_witness :
    (parse_gdb_dat exC9lines).warnings = [] :=
  parser_no_warnings_when_consistent exC9lines (by decide) (by decide)

/-- Failure classes of build_carp_instance: the dynamic failure of int()
on a missing or non-numeric header, and the fatal unreachable-vertex
error carrying the depot and the full list of unreachable ids. -/
inductive BuildErr where
  | badInt (which : String)
  | unreachableErr (depot : Int) (ids : List Nat)
deriving DecidableEq, Repr

/-- int(x) on an optional header value: an integer passes through, a
string must be an optionally signed digit run after stripping, and an
absent or non-numeric value raises. -/
def pyInt : Option Val → Except BuildErr Int
  | none => Except.error (BuildErr.badInt "NoneType")
  | some (Val.int n) => Except.ok n
  | some (Val.str s) =>
    if isSignedDigitsRe (stripWS s.toList) then Except.ok (intOfSigned (stripWS s.toList))
    else Except.error (BuildErr.badInt s)

/-- The InstanceBundle assembled by build_carp_instance. -/
structure Bundle where
  name : Option Val
  n_vertices : Int
  depot : Int
  capacity : Int
  n_tasks : Nat
  tasks : List REdge
  dist : Mat

/-- The underlying graph edges: (u, v, cost) of each task, since the
non-required edge count is zero in this format family. -/
def graphEdgesOf (tasks : List REdge) : List (Nat × Nat × Int) :=
  tasks.map (fun t => (t.u, t.v, (t.cost : Int)))

/-- The unreachable-vertex scan: every i in 1..n with dist[depot][i]
infinite, in increasing order. -/
def unreachableFrom (n : Nat) (depot : Nat) (d : Mat) : List Nat :=
  (jrange n).filter (fun i => d depot i = ⊤)

/-- Constructor test of an Except value. -/
def exceptIsOk {ε α : Type _} : Except ε α → Bool
  | Except.ok _ => true
  | Except.error _ => false

/-- build_carp_instance from build_instance_gdb.py: read the three integer
meta fields, compute the distance matrix from the task edges, fail fatally
when some vertex is unreachable from the depot, otherwise assemble the
bundle with the task list passed through verbatim. -/
def build_carp_instance (p : Parsed) : Except BuildErr Bundle :=
  match pyInt p.meta.n_vertices with
  | Except.error e => Except.error e
  | Except.ok n =>
    match pyInt p.meta.depot with
    | Except.error e => Except.error e
    | Except.ok depot =>
      match pyInt p.meta.capacity with
      | Except.error e => Except.error e
      | Except.ok capacity =>
        if (unreachableFrom n.toNat depot.toNat
            (floyd_warshall n.toNat (graphEdgesOf p.required_edges))).isEmpty then
          Except.ok ⟨p.meta.name, n, depot, capacity, p.required_edges.length,
            p.required_edges,
            floyd_warshall n.toNat (graphEdgesOf p.required_edges)⟩
        else
          Except.error (BuildErr.unreachableErr depot
            (unreachableFrom n.toNat depot.toNat
              (floyd_warshall n.toNat (graphEdgesOf p.required_edges))))

/-- C5: on a parsed instance with integer meta fields, a depot inside
1..n and task endpoints inside 1..n, build_carp_instance fails fatally
reporting exactly the set of vertices with infinite distance from the
depot whenever that set is nonempty, and returns a bundle when it is
empty. -/
theorem unreachable_vertices_fatal (p : Parsed) (n depot capacity : Int)
    (hn : pyInt p.meta.n_vertices = Except.ok n)
    (hd : pyInt p.meta.depot = Except.ok depot)
    (hc : pyInt p.meta.capacity = Except.ok capacity)
    (hdep : 1 ≤ depot ∧ depot ≤ n)
    (htasks : ∀ t ∈ p.required_edges,
      1 ≤ t.u ∧ t.u ≤ n.toNat ∧ 1 ≤ t.v ∧ t.v ≤ n.toNat) :
    (unreachableFrom n.toNat depot.toNat
        (floyd_warshall n.toNat (graphEdgesOf p.required_edges)) ≠ [] →
      build_carp_instance p = Except.error (BuildErr.unreachableErr depot
        (unreachableFrom n.toNat depot.toNat
          (floyd_warshall n.toNat (graphEdgesOf p.required_edges))))) ∧
    (unreachableFrom n.toNat depot.toNat
        (floyd_warshall n.toNat (graphEdgesOf p.required_edges)) = [] →
      exceptIsOk (build_carp_instance p) = true) := by
  unfold build_carp_instance
  simp only [hn, hd, hc]
  constructor
  · intro hne
    rw [if_neg]
    intro hc2
    exact hne (List.isEmpty_iff.mp hc2)
  · intro heq
    rw [if_pos (List.isEmpty_iff.mpr heq)]
    rfl

/-- Input of the C5 witness: three declared vertices, a depot of 1 and a
single task edge between 1 and 2, leaving vertex 3 with no incident edge. -/
def exC5parsed : Parsed :=
  ⟨[("VERTICES", Val.int 3), ("DEPOSITO", Val.int 1), ("CAPACIDAD", Val.int 40)],
   ⟨none, none, some (Val.int 3), none, none, none, some (Val.int 40), none,
    some (Val.int 1), none⟩,
   [⟨1, 2, 5, 3, true⟩], []⟩

/-- Witness for C5: the isolated vertex 3 makes the build fail fatally,
naming exactly [3]. -/
theorem unreachable_vertices_fatal_witness :
    build_carp_instance exC5parsed = Except.error (BuildErr.unreachableErr 1 [3]) := by
  have hu : unreachableFrom (3 : Int).toNat (1 : Int).toNat
      (floyd_warshall (3 : Int).toNat (graphEdgesOf exC5parsed.required_edges)) = [3] := by
    decide
  have h := (unreachable_vertices_fatal exC5parsed 3 1 40 rfl rfl rfl
    (by decide) (by decide)).1 (by rw [hu]; exact List.cons_ne_nil _ _)
  rw [hu] at h
  exact h

/-- C10: whenever the bundle assembler succeeds on a parse result, the
bundle's tasks field is exactly the parsed required-edge list and n_tasks
is its length. -/
theorem bundle_tasks_passthrough (lines : List String) (b : Bundle)
    (h : build_carp_instance (parse_gdb_dat lines) = Except.ok b) :
    b.tasks = (parse_gdb_dat lines).required_edges ∧
      b.n_tasks = (parse_gdb_dat lines).required_edges.length := by
  unfold build_carp_instance at h
  split at h
  · cases h
  · split at h
    · cases h
    · split at h
      · cases h
      · split at h
        · injection h with h'
          rw [← h']
          exact ⟨rfl, rfl⟩
        · cases h

/-- Input of the C10 witness: a complete small instance that parses and
builds successfully. -/
def exC10lines : List String :=
  ["NOMBRE : mini", "VERTICES : 2", "CAPACIDAD : 5", "DEPOSITO : 1",
   "ARISTAS_REQ : 1", "LISTA_ARISTAS_REQ :", "( 1 , 2 ) coste 4 demanda 2"]

/-- The bundle actually produced on the C10 witness input. -/
def exC10bundle : Bundle :=
  match build_carp_instance (parse_gdb_dat exC10lines) with
  | Except.ok b => b
  | Except.error _ => ⟨none, 0, 0, 0, 0, [], fun _ _ => ⊤⟩

/-- Witness for C10 on the concrete successful build. -/
theorem bundle_tasks_passthrough_witness :
    exC10bundle.tasks = (parse_gdb_dat exC10lines).required_edges ∧
      exC10bundle.n_tasks = (parse_gdb_dat exC10lines).required_edges.length :=
  bundle_tasks_passthrough exC10lines exC10bundle rfl

/-- An exact rational carried as an unnormalized fraction with positive
denominator.  The floats stored in the guardrail's arrays are exact
rationals of this kind; addition and order are implemented with integer
arithmetic only, so every guardrail computation evaluates. -/
structure QVal where
  num : Int
  den : Int
deriving DecidableEq, Repr

/-- The rational of an integer. -/
def qOfInt (n : Int) : QVal := ⟨n, 1⟩

/-- Exact addition of fractions. -/
def qAdd (x y : QVal) : QVal := ⟨x.num * y.den + y.num * x.den, x.den * y.den⟩

/-- Exact strict order on fractions with positive denominators. -/
def qLt (x y : QVal) : Bool := decide (x.num * y.den < y.num * x.den)

/-- Exact order on fractions with positive denominators. -/
def qLe (x y : QVal) : Bool := decide (x.num * y.den ≤ y.num * x.den)

/-- min as Python computes it, keeping the left value on ties. -/
def qMin (x y : QVal) : QVal := if qLe x y then x else y

/-- max as the numpy reduction computes it. -/
def qMax (x y : QVal) : QVal := if qLt x y then y else x

/-- One row of the six-column arc matrices fed to the guardrail: origin,
destination, demand, priority class, service cost, travel cost.  Node ids
are the ints the source casts the first two columns to. -/
structure Arc where
  u : Int
  v : Int
  demand : QVal
  f3 : QVal
  f4 : QVal
  cost : QVal
deriving DecidableEq, Repr

/-- Report status values. -/
inductive GStatus where
  | PASS
  | WARNING
  | FAIL
deriving DecidableEq, Repr

/-- Issue strings of the report, as tagged values carrying the numbers the
source interpolates into the message text. -/
inductive Issue where
  | notStronglyConnected
  | zeroOrNegativeCosts
  | infeasibleDemand (maxq Q : QVal)
  | triangleViolation (u v w : Int)
deriving DecidableEq, Repr

/-- The ValidationReport. -/
structure Report where
  status : GStatus
  issues : List Issue
deriving DecidableEq, Repr

/-- The dynamic failures validate_instance can raise: the null-graph
rejection inside the strong-connectivity check, the max reduction over an
empty demand column, and drawing three distinct nodes from fewer than
three. -/
inductive GErr where
  | nullGraph
  | emptyReqMax
  | sampleTooFewNodes
deriving DecidableEq, Repr

/-- Decidable equality of guardrail results. -/
instance {ε α : Type _} [DecidableEq ε] [DecidableEq α] : DecidableEq (Except ε α) :=
  fun x y =>
    match x, y with
    | Except.ok a, Except.ok b =>
      if h : a = b then Decidable.isTrue (congrArg Except.ok h)
      else Decidable.isFalse (fun hc => h (Except.ok.inj hc))
    | Except.error a, Except.error b =>
      if h : a = b then Decidable.isTrue (congrArg Except.error h)
      else Decidable.isFalse (fun hc => h (Except.error.inj hc))
    | Except.ok _, Except.error _ => Decidable.isFalse (fun hc => Except.noConfusion hc)
    | Except.error _, Except.ok _ => Decidable.isFalse (fun hc => Except.noConfusion hc)

/-- Node insertion as add_edge performs it: append when unseen. -/
def addNode (ns : List Int) (x : Int) : List Int :=
  if x ∈ ns then ns else ns ++ [x]

/-- Node list of the multigraph in insertion order. -/
def nodesOf (arcs : List Arc) : List Int :=
  arcs.foldl (fun ns a => addNode (addNode ns a.u) a.v) []

/-- Direct successors along directed arcs. -/
def succsOf (arcs : List Arc) (x : Int) : List Int :=
  (arcs.filter (fun a => a.u == x)).map (fun a => a.v)

/-- One breadth expansion of a reached set. -/
def expandR (arcs : List Arc) (s : List Int) : List Int :=
  s.foldl (fun acc x => (succsOf arcs x).foldl addNode acc) s

/-- All nodes reachable from x within fuel expansions; with fuel equal to
the node count this is the full reachable set. -/
def reachFrom (arcs : List Arc) (fuel : Nat) (x : Int) : List Int :=
  (expandR arcs)^[fuel] [x]

/-- is_strongly_connected on the arc multigraph: every node reaches every
node along directed arcs. -/
def isStronglyConnected (arcs : List Arc) : Bool :=
  (nodesOf arcs).all (fun x => (nodesOf arcs).all
    (fun y => (reachFrom arcs (nodesOf arcs).length x).contains y))

/-- Pointwise minimum on optional distances. -/
def oMinQ : Option QVal → Option QVal → Option QVal
  | none, y => y
  | some a, none => some a
  | some a, some b => some (qMin a b)

/-- One relaxation of a single directed arc. -/
def relaxArc (d : Int → Option QVal) (a : Arc) : Int → Option QVal :=
  fun x => if x = a.v then oMinQ (d a.v) ((d a.u).map (fun q => qAdd q a.cost)) else d x

/-- One relaxation round over every arc. -/
def relaxAll (arcs : List Arc) (d : Int → Option QVal) : Int → Option QVal :=
  arcs.foldl relaxArc d

/-- Single-source shortest-path distances (none for unreachable), as the
all-pairs dijkstra of the source computes them under its nonnegative-weight
precondition: with rounds equal to the node count the relaxation has
reached the fixpoint over all simple paths. -/
def distFrom (arcs : List Arc) (rounds : Nat) (src : Int) : Int → Option QVal :=
  (relaxAll arcs)^[rounds] (fun x => if x = src then some (qOfInt 0) else none)

/-- dist_matrix[u].get(w, big_m): the sentinel replaces an unreachable
pair. -/
def getD (arcs : List Arc) (rounds : Nat) (bigm : QVal) (u w : Int) : QVal :=
  (distFrom arcs rounds u w).getD bigm

/-- The epsilon of the float comparison in the triangle check. -/
def triEps : QVal := ⟨1, 10000000⟩

/-- The big-m sentinel default of the guardrail object. -/
def bigMDefault : QVal := ⟨1000000, 1⟩

/-- The sampled triangle-inequality loop: on the first triple with
d(u,w) > d(u,v) + d(v,w) + eps, set FAIL, append the issue and stop (the
break of the source); otherwise leave the state unchanged. -/
def triLoop (dfun : Int → Int → QVal) (st : GStatus × List Issue) :
    List (Int × Int × Int) → GStatus × List Issue
  | [] => st
  | (u, v, w) :: rest =>
    if qLt (qAdd (qAdd (dfun u v) (dfun v w)) triEps) (dfun u w) then
      (GStatus.FAIL, st.2 ++ [Issue.triangleViolation u v w])
    else triLoop dfun st rest

/-- np.max over the demand column of a nonempty req matrix. -/
def maxDemand : List Arc → QVal
  | [] => qOfInt 0
  | a :: t => t.foldl (fun m x => qMax m x.demand) a.demand

/-- The cost-sanity condition: some arc with cost at most zero. -/
def anyNonposCost (arcs : List Arc) : Bool :=
  arcs.any (fun a => qLe a.cost (qOfInt 0))

/-- Status after the first three checks, encoding the source's sequence of
assignments: FAIL for a demand above capacity, else WARNING for a
nonpositive cost (this assignment overwrites whatever came before), else
FAIL for broken strong connectivity, else PASS. -/
def preStatus (Q : QVal) (req nonreq : List Arc) : GStatus :=
  if qLt Q (maxDemand req) then GStatus.FAIL
  else if anyNonposCost (req ++ nonreq) then GStatus.WARNING
  else if isStronglyConnected (req ++ nonreq) then GStatus.PASS
  else GStatus.FAIL

/-- Issues appended by the first three checks, in check order. -/
def preIssues (Q : QVal) (req nonreq : List Arc) : List Issue :=
  (if isStronglyConnected (req ++ nonreq) then [] else [Issue.notStronglyConnected]) ++
  ((if anyNonposCost (req ++ nonreq) then [Issue.zeroOrNegativeCosts] else []) ++
   (if qLt Q (maxDemand req) then [Issue.infeasibleDemand (maxDemand req) Q] else []))

/-- validate_instance of the ShARC guardrail (conversionguardrail.py),
with capacity Q and the big-m sentinel as parameters of the object and the
random triple draws supplied explicitly as the samples list, making the
sampling reproducible as the spec demands.  The three error exits model,
in evaluation order, the exceptions the source hits on a null graph, on an
empty required matrix at the max reduction, and on sampling three distinct
nodes from fewer than three. -/
def validate_instance (Q bigm : QVal) (req nonreq : List Arc)
    (samples : List (Int × Int × Int)) : Except GErr Report :=
  if (nodesOf (req ++ nonreq)).isEmpty then Except.error GErr.nullGraph
  else if req.isEmpty then Except.error GErr.emptyReqMax
  else if (nodesOf (req ++ nonreq)).length < 3 then Except.error GErr.sampleTooFewNodes
  else
    Except.ok
      ⟨(triLoop (getD (req ++ nonreq) (nodesOf (req ++ nonreq)).length bigm)
          (preStatus Q req nonreq, preIssues Q req nonreq) samples).1,
       (triLoop (getD (req ++ nonreq) (nodesOf (req ++ nonreq)).length bigm)
          (preStatus Q req nonreq, preIssues Q req nonreq) samples).2⟩

lemma triLoop_fail_status (dfun : Int → Int → QVal) (is' : List Issue)
    (L : List (Int × Int × Int)) :
    (triLoop dfun (GStatus.FAIL, is') L).1 = GStatus.FAIL := by
  induction L with
  | nil => rfl
  | cons t rest ih =>
    obtain ⟨u, v, w⟩ := t
    unfold triLoop
    split
    · rfl
    · exact ih

lemma triLoop_issues_mem (dfun : Int → Int → QVal) (st : GStatus × List Issue)
    (L : List (Int × Int × Int)) (x : Issue) (hx : x ∈ st.2) :
    x ∈ (triLoop dfun st L).2 := by
  induction L generalizing st with
  | nil => exact hx
  | cons t rest ih =>
    obtain ⟨u, v, w⟩ := t
    unfold triLoop
    split
    · exact List.mem_append.mpr (Or.inl hx)
    · exact ih st hx

lemma triLoop_id (dfun : Int → Int → QVal) (st : GStatus × List Issue)
    (L : List (Int × Int × Int))
    (h : ∀ t ∈ L, qLt (qAdd (qAdd (dfun t.1 t.2.1) (dfun t.2.1 t.2.2)) triEps)
      (dfun t.1 t.2.2) = false) :
    triLoop dfun st L = st := by
  induction L with
  | nil => rfl
  | cons t rest ih =>
    obtain ⟨u, v, w⟩ := t
    unfold triLoop
    rw [h (u, v, w) (List.mem_cons_self _ _)]
    simp only [Bool.false_eq_true, if_false]
    exact ih (fun s hs => h s (List.mem_cons_of_mem _ hs))

/-- Required arcs of the C2 failing input: one serviced arc from 1 to 2. -/
def exC2req : List Arc := [⟨1, 2, qOfInt 1, qOfInt 0, qOfInt 0, qOfInt 1⟩]

/-- Traversal arcs of the C2 failing input: the return arc 2 to 1 and a
zero-cost arc into the sink vertex 3, which has no outgoing arc, so the
graph is not strongly connected and one cost is nonpositive. -/
def exC2nonreq : List Arc :=
  [⟨2, 1, qOfInt 0, qOfInt 0, qOfInt 0, qOfInt 1⟩,
   ⟨1, 3, qOfInt 0, qOfInt 0, qOfInt 0, qOfInt 0⟩]

/-- C2 (code bug): on the failing input the strong-connectivity check sets
FAIL, yet the later cost-sanity assignment overwrites the status with
WARNING, and no sampled triple can restore FAIL because the shortest-path
distances violate no triangle inequality; so for every valid sample draw
the final report carries status WARNING while its issues list records the
FAIL-worthy connectivity finding. -/
theorem cost_warning_overwrites_fail (samples : List (Int × Int × Int))
    (hs : ∀ t ∈ samples, t.1 ∈ nodesOf (exC2req ++ exC2nonreq) ∧
      t.2.1 ∈ nodesOf (exC2req ++ exC2nonreq) ∧ t.2.2 ∈ nodesOf (exC2req ++ exC2nonreq)) :
    validate_instance (qOfInt 100) bigMDefault exC2req exC2nonreq samples =
      Except.ok ⟨GStatus.WARNING, [Issue.notStronglyConnected, Issue.zeroOrNegativeCosts]⟩ := by
  have e1 : (nodesOf (exC2req ++ exC2nonreq)).isEmpty = false := by decide
  have e2 : exC2req.isEmpty = false := by decide
  have e3 : ¬((nodesOf (exC2req ++ exC2nonreq)).length < 3) := by decide
  have hnov : ∀ u ∈ nodesOf (exC2req ++ exC2nonreq), ∀ v ∈ nodesOf (exC2req ++ exC2nonreq),
      ∀ w ∈ nodesOf (exC2req ++ exC2nonreq),
      qLt (qAdd (qAdd
          (getD (exC2req ++ exC2nonreq) (nodesOf (exC2req ++ exC2nonreq)).length bigMDefault u v)
          (getD (exC2req ++ exC2nonreq) (nodesOf (exC2req ++ exC2nonreq)).length bigMDefault v w))
          triEps)
        (getD (exC2req ++ exC2nonreq) (nodesOf (exC2req ++ exC2nonreq)).length bigMDefault u w) =
        false := by decide
  unfold validate_instance
  rw [e1, e2, if_neg e3]
  simp only [Bool.false_eq_true, if_false]
  rw [triLoop_id _ _ samples
    (fun t ht => hnov t.1 (hs t ht).1 t.2.1 (hs t ht).2.1 t.2.2 (hs t ht).2.2)]
  decide

/-- A complete valid draw of distinct ordered triples on the C2 input. -/
def exC2samples : List (Int × Int × Int) :=
  [(1, 2, 3), (1, 3, 2), (2, 1, 3), (2, 3, 1), (3, 1, 2), (3, 2, 1)]

/-- Witness for the C2 code bug at a concrete sample draw. -/
theorem cost_warning_overwrites_fail_witness :
    validate_instance (qOfInt 100) bigMDefault exC2req exC2nonreq exC2samples =
      Except.ok ⟨GStatus.WARNING, [Issue.notStronglyConnected, Issue.zeroOrNegativeCosts]⟩ :=
  cost_warning_overwrites_fail exC2samples (by decide)

/-- Traversal arcs spanning three nodes, used by the C3 counterexample. -/
def exC3nonreq : List Arc :=
  [⟨1, 2, qOfInt 0, qOfInt 0, qOfInt 0, qOfInt 1⟩,
   ⟨2, 3, qOfInt 0, qOfInt 0, qOfInt 0, qOfInt 1⟩,
   ⟨3, 1, qOfInt 0, qOfInt 0, qOfInt 0, qOfInt 1⟩]

/-- C3 counterexample: with an empty required matrix the guardrail does
not return a report; the max reduction over the empty demand column
raises, exactly as the claim's "including empty required sets" denies. -/
theorem validate_crashes_on_empty_req :
    exceptIsOk (validate_instance (qOfInt 100) bigMDefault [] exC3nonreq []) = false := by
  decide

/-- C3 as amended: parse_gdb_dat is total by construction (it is a plain
function into Parsed), and validate_instance returns a report whenever the
required matrix is nonempty and the arc set spans at least three nodes,
under the nonnegative-cost precondition of its shortest-path subroutine;
the two build-time infeasibility classes and these two guardrail crash
cases are the only aborts. -/
theorem validate_returns_report_when_wellformed (Q bigm : QVal)
    (req nonreq : List Arc) (samples : List (Int × Int × Int))
    (hreq : req ≠ [])
    (hn : 3 ≤ (nodesOf (req ++ nonreq)).length)
    (hcosts : ∀ a ∈ req ++ nonreq, qLe (qOfInt 0) a.cost = true) :
    exceptIsOk (validate_instance Q bigm req nonreq samples) = true := by
  have h1 : (nodesOf (req ++ nonreq)).isEmpty = false := by
    cases hq : nodesOf (req ++ nonreq) with
    | nil => rw [hq] at hn; simp at hn
    | cons a t => rfl
  have h2 : req.isEmpty = false := by
    cases hq : req with
    | nil => exact absurd hq hreq
    | cons a t => rfl
  have h3 : ¬((nodesOf (req ++ nonreq)).length < 3) := by omega
  unfold validate_instance
  rw [h1, h2, if_neg h3]
  rfl

/-- Required arc of the C3 witness. -/
def exC3wreq : List Arc := [⟨1, 2, ⟨1, 2⟩, qOfInt 0, qOfInt 0, qOfInt 1⟩]

/-- Witness for the amended C3 at a concrete well-formed input. -/
theorem validate_returns_report_when_wellformed_witness :
    exceptIsOk (validate_instance (qOfInt 100) bigMDefault exC3wreq exC3nonreq
      [(1, 2, 3)]) = true :=
  validate_returns_report_when_wellformed (qOfInt 100) bigMDefault exC3wreq exC3nonreq
    [(1, 2, 3)] (by decide) (by decide) (by decide)

/-- The parsed instance of the C1 example: depot 1, capacity 40, two
vertices and a single task of demand 50 on edge (1, 2). -/
def exC1parsed : Parsed :=
  ⟨[("VERTICES", Val.int 2), ("DEPOSITO", Val.int 1), ("CAPACIDAD", Val.int 40)],
   ⟨none, none, some (Val.int 2), none, none, none, some (Val.int 40), none,
    some (Val.int 1), none⟩,
   [⟨1, 2, 3, 50, true⟩], []⟩

/-- C1 counterexample: with depot 1, capacity 40 and one task of demand 50,
build_carp_instance returns a bundle; no capacity-feasibility check exists
at build time. -/
theorem capacity_violation_builds_anyway :
    exceptIsOk (build_carp_instance exC1parsed) = true := by decide

/-- Required arcs of the C1 witness for the guardrail side. -/
def exC1wreq : List Arc := [⟨1, 2, qOfInt 50, qOfInt 0, qOfInt 0, qOfInt 3⟩]

/-- Traversal arcs of the C1 witness, closing a directed cycle over three
nodes so the guardrail reaches its report. -/
def exC1wnonreq : List Arc :=
  [⟨2, 3, qOfInt 0, qOfInt 0, qOfInt 0, qOfInt 1⟩,
   ⟨3, 1, qOfInt 0, qOfInt 0, qOfInt 0, qOfInt 1⟩]

/-- C1 as amended: the capacity-feasibility check does not live in the
bundle builder but in the guardrail.  build_carp_instance returns a bundle
on the claim's own example, while every report the guardrail produces for
a required matrix whose maximum demand exceeds Q has status FAIL and an
issue naming that demand and Q. -/
theorem capacity_check_lives_in_guardrail :
    exceptIsOk (build_carp_instance exC1parsed) = true ∧
    ∀ (Q bigm : QVal) (req nonreq : List Arc) (samples : List (Int × Int × Int)) (r : Report),
      validate_instance Q bigm req nonreq samples = Except.ok r →
      qLt Q (maxDemand req) = true →
      r.status = GStatus.FAIL ∧ Issue.infeasibleDemand (maxDemand req) Q ∈ r.issues := by
  constructor
  · decide
  · intro Q bigm req nonreq samples r hok hdem
    unfold validate_instance at hok
    split at hok
    · cases hok
    · split at hok
      · cases hok
      · split at hok
        · cases hok
        · injection hok with h'
          rw [← h']
          have hps : preStatus Q req nonreq = GStatus.FAIL := by
            unfold preStatus
            rw [hdem]
            rfl
          constructor
          · show (triLoop _ (preStatus Q req nonreq, preIssues Q req nonreq) samples).1 =
              GStatus.FAIL
            rw [hps]
            exact triLoop_fail_status _ _ _
          · show Issue.infeasibleDemand (maxDemand req) Q ∈
              (triLoop _ (preStatus Q req nonreq, preIssues Q req nonreq) samples).2
            apply triLoop_issues_mem
            show Issue.infeasibleDemand (maxDemand req) Q ∈ preIssues Q req nonreq
            unfold preIssues
            refine List.mem_append.mpr (Or.inr (List.mem_append.mpr (Or.inr ?_)))
            rw [hdem]
            exact List.mem_singleton.mpr rfl

/-- The report the guardrail produces on the C1 witness input. -/
def exC1wreport : Report :=
  match validate_instance (qOfInt 40) bigMDefault exC1wreq exC1wnonreq [(1, 2, 3)] with
  | Except.ok r => r
  | Except.error _ => ⟨GStatus.PASS, []⟩

/-- Witness for the amended C1: the concrete build succeeds and the
concrete guardrail report is FAIL naming 50 and 40. -/
theorem capacity_check_lives_in_guardrail_witness :
    exceptIsOk (build_carp_instance exC1parsed) = true ∧
    exC1wreport.status = GStatus.FAIL ∧
      Issue.infeasibleDemand (maxDemand exC1wreq) (qOfInt 40) ∈ exC1wreport.issues :=
  ⟨capacity_check_lives_in_guardrail.1,
   capacity_check_lives_in_guardrail.2 (qOfInt 40) bigMDefault exC1wreq exC1wnonreq
     [(1, 2, 3)] exC1wreport (by decide) (by decide)⟩
